import Mathlib

/-!
A shallow embedding in Lean of the statistical helper functions of
`src/funciones_auxiliares.py` — an exploratory-data-analysis helper library
over in-memory tables — together with theorems checking the library's
documented behaviour.

Modelling conventions:

* A table cell is a `Val`: a rational number, a string, a half-open interval
  (the kind of value `pd.cut` produces), or the missing marker `Val.null`
  (pandas `NaN`).
* A dataframe is a list of named, dtype-tagged columns; rows are aligned by
  position (columns of a well-formed dataframe have equal length, and
  positional `zip`s model pandas row alignment).
* Python floats are modelled by `ℚ` while the value is known to be finite.
  Stages of the WoE pipeline that can produce `±inf`/`NaN` use the dedicated
  types `QF` (rational or NaN) and `EFloat` (finite real, `+inf`, `-inf`,
  NaN).
* `ℚ` division is total with `x / 0 = 0`; theorems that depend on a division
  carry the corresponding positivity hypotheses explicitly, restricting them
  to the inputs on which the Python float computation is the computation
  modelled here.
* Where pandas sorts group keys or category values (`groupby`, `crosstab`,
  `np.unique`), the model uses `List.dedup`, which enumerates the same set of
  distinct values in a different order; none of the verified statements
  depends on that order.
-/

/-- One cell of a dataframe. -/
inductive Val where
  | num (q : ℚ)
  | str (s : String)
  | itv (lo hi : ℚ)
  | null
deriving DecidableEq

/-- `x.notna()` for one cell: every value except the missing marker. -/
def Val.notNull : Val → Bool
  | .null => false
  | _ => true

/-- The numeric content of a cell, when it has one. -/
def Val.toNum : Val → Option ℚ
  | .num q => some q
  | _ => none

/-- One named column with its pandas dtype string. -/
structure Column where
  name : String
  dtype : String
  values : List Val
deriving DecidableEq

/-- A dataframe: a list of columns. -/
structure DataFrame where
  cols : List Column
deriving DecidableEq

/-- `df[n]`: the values of the column named `n` (first match; `[]` when the
column is absent — the Python code would raise a `KeyError`, and every use
below supplies existing columns). -/
def DataFrame.col (df : DataFrame) (n : String) : List Val :=
  ((df.cols.find? (fun c => c.name == n)).map Column.values).getD []

/-- `df.shape[0]`: the row count, read off the first column. -/
def DataFrame.nRows (df : DataFrame) : ℕ :=
  ((df.cols.head?).map (fun c => c.values.length)).getD 0

/-- `df[n] = vs`: replace the values of column `n`, keeping its position. -/
def DataFrame.setCol (df : DataFrame) (n : String) (vs : List Val) : DataFrame :=
  ⟨df.cols.map fun c => if c.name == n then { c with values := vs } else c⟩

/-! ### `dame_variables_categoricas` (source lines 11–45) -/

/-- `int(len(np.unique(dataset[i].dropna(axis=0, how='all'))))`: the number
of distinct non-missing values of a column. -/
def uniqueCount (c : Column) : ℕ :=
  ((c.values.filter Val.notNull).dedup).length

/-- The classifier's test: `dataset[i].dtype in ['object', 'category'] or
unicos < max_unicos`. -/
def isCatCol (max_unicos : ℕ) (c : Column) : Bool :=
  (c.dtype == "object" || c.dtype == "category") || decide (uniqueCount c < max_unicos)

/-- Return type of `dame_variables_categoricas`: the Python function returns
either the sentinel integer `1` or a pair of lists of column names. -/
inductive DVCResult where
  | err (code : ℤ)
  | ok (cats other : List String)
deriving DecidableEq

/-- `dame_variables_categoricas(dataset, max_unicos)`: prints a message and
returns `1` when `dataset is None`; otherwise one loop over the columns
appends each name to `lista_variables_categoricas` when the dtype/cardinality
test holds and to `other` when it does not — i.e. a stable partition. -/
def dame_variables_categoricas (dataset : Option DataFrame) (max_unicos : ℕ := 50) :
    DVCResult :=
  match dataset with
  | none => .err 1
  | some df =>
      .ok ((df.cols.filter (isCatCol max_unicos)).map Column.name)
        ((df.cols.filter (fun c => !isCatCol max_unicos c)).map Column.name)

/-- The categorical test in the spec's wording: dtype is text/category, or
the number of distinct non-missing values is strictly below the threshold. -/
def CatSpec (max_unicos : ℕ) (c : Column) : Prop :=
  c.dtype = "object" ∨ c.dtype = "category" ∨ uniqueCount c < max_unicos

theorem isCatCol_iff (m : ℕ) (c : Column) : isCatCol m c = true ↔ CatSpec m c := by
  simp [isCatCol, CatSpec, or_assoc]

/-! ### `get_corr_matrix` (source lines 170–191) -/

/-- `get_corr_matrix(dataset, metodo, size_figure)`: prints a message and
returns the integer `1` when `dataset is None`; otherwise computes and draws
the correlation heatmap (presentation, not modelled) and returns `0`. -/
def get_corr_matrix (dataset : Option DataFrame) (metodo : String := "pearson") : ℤ :=
  match dataset with
  | none => 1
  | some _ => 0

/-! ### Claim C4: the classifier partitions the columns -/

/-- **C4** (amendable part proved as stated): for every dataset whose column
names are distinct and every uniqueness threshold, the two lists returned by
`dame_variables_categoricas` are disjoint, their union is exactly the
dataset's columns, and a column is in the categorical list iff its dtype is
text/category or its number of distinct non-missing values is strictly below
the threshold. -/
theorem C4_classifier_partition (df : DataFrame) (max_unicos : ℕ)
    (cats other : List String)
    (hnd : (df.cols.map Column.name).Nodup)
    (h : dame_variables_categoricas (some df) max_unicos = .ok cats other) :
    (∀ n, ¬(n ∈ cats ∧ n ∈ other)) ∧
    (∀ n, (n ∈ cats ∨ n ∈ other) ↔ n ∈ df.cols.map Column.name) ∧
    (∀ n, n ∈ cats ↔ ∃ c ∈ df.cols, c.name = n ∧ CatSpec max_unicos c) := by
  have hc : cats = (df.cols.filter (isCatCol max_unicos)).map Column.name := by
    simpa [dame_variables_categoricas] using (congrArg
      (fun r => match r with | DVCResult.ok a _ => a | _ => []) h).symm
  have ho : other = (df.cols.filter (fun c => !isCatCol max_unicos c)).map Column.name := by
    simpa [dame_variables_categoricas] using (congrArg
      (fun r => match r with | DVCResult.ok _ b => b | _ => []) h).symm
  subst hc ho
  refine ⟨?_, ?_, ?_⟩
  · rintro n ⟨h1, h2⟩
    rcases List.mem_map.1 h1 with ⟨c1, hc1, rfl⟩
    rcases List.mem_map.1 h2 with ⟨c2, hc2, hn2⟩
    rcases List.mem_filter.1 hc1 with ⟨hc1m, hc1p⟩
    rcases List.mem_filter.1 hc2 with ⟨hc2m, hc2p⟩
    have : c2 = c1 := List.inj_on_of_nodup_map hnd hc2m hc1m hn2
    subst this
    simp [hc1p] at hc2p
  · intro n
    constructor
    · rintro (hmem | hmem) <;>
      · rcases List.mem_map.1 hmem with ⟨c, hcm, rfl⟩
        exact List.mem_map.2 ⟨c, (List.mem_filter.1 hcm).1, rfl⟩
    · intro hmem
      rcases List.mem_map.1 hmem with ⟨c, hcm, rfl⟩
      by_cases hp : isCatCol max_unicos c
      · exact Or.inl (List.mem_map.2 ⟨c, List.mem_filter.2 ⟨hcm, hp⟩, rfl⟩)
      · exact Or.inr (List.mem_map.2 ⟨c, List.mem_filter.2 ⟨hcm, by simp [hp]⟩, rfl⟩)
  · intro n
    constructor
    · intro hmem
      rcases List.mem_map.1 hmem with ⟨c, hcm, rfl⟩
      rcases List.mem_filter.1 hcm with ⟨hcmem, hcp⟩
      exact ⟨c, hcmem, rfl, (isCatCol_iff _ _).1 hcp⟩
    · rintro ⟨c, hcm, rfl, hspec⟩
      exact List.mem_map.2 ⟨c, List.mem_filter.2 ⟨hcm, (isCatCol_iff _ _).2 hspec⟩, rfl⟩

/-- A two-column dataframe: a text column and a numeric column with three
distinct values. -/
def dfC4 : DataFrame :=
  ⟨[⟨"a", "object", [.str "x"]⟩, ⟨"b", "int64", [.num 0, .num 1, .num 2]⟩]⟩

theorem C4_classifier_partition_witness :
    ¬("a" ∈ ["a"] ∧ "a" ∈ ["b"]) ∧ ("a" ∈ ["a"] ↔ ∃ c ∈ dfC4.cols, c.name = "a" ∧ CatSpec 2 c) :=
  ⟨(C4_classifier_partition dfC4 2 ["a"] ["b"] (by decide) (by decide)).1 "a",
   (C4_classifier_partition dfC4 2 ["a"] ["b"] (by decide) (by decide)).2.2 "a"⟩

/-! ### Claim C8: missing dataset reported by sentinel `1` -/

/-- **C8**: when no dataset is supplied, `dame_variables_categoricas` and
`get_corr_matrix` return the sentinel integer `1` (after printing a message,
not modelled) instead of raising; when a dataset is supplied, neither
returns that sentinel (`dame_variables_categoricas` returns the two lists,
`get_corr_matrix` returns `0`). -/
theorem C8_missing_dataset_sentinel :
    (∀ max_unicos, dame_variables_categoricas none max_unicos = .err 1) ∧
    (∀ metodo, get_corr_matrix none metodo = 1) ∧
    (∀ df max_unicos, dame_variables_categoricas (some df) max_unicos ≠ .err 1) ∧
    (∀ df metodo, get_corr_matrix (some df) metodo ≠ 1) := by
  refine ⟨fun _ => rfl, fun _ => rfl, fun df m => ?_, fun df m => ?_⟩ <;>
    simp [dame_variables_categoricas, get_corr_matrix]

/-! ### Float values with NaN and infinities (the WoE/IV pipeline) -/

/-- A rational float or NaN: the value of one cell of
`tabla['dist_malos'].replace(0, np.nan)` and of the ratio built from it. -/
inductive QF where
  | num (q : ℚ)
  | nan
deriving DecidableEq

/-- An IEEE-style float: finite value, `+inf`, `-inf` or NaN. -/
inductive EFloat where
  | fin (x : ℝ)
  | pinf
  | ninf
  | nan

/-- `.replace(0, np.nan)` on one cell. -/
def replace0nan (q : ℚ) : QF := if q = 0 then .nan else .num q

/-- Division of a finite float by a possibly-NaN float.  The denominator is
never 0 on the code's path here: `replace0nan` has already turned 0 into
NaN, which absorbs. -/
def QF.div (a : ℚ) : QF → QF
  | .num q => .num (a / q)
  | .nan => .nan

/-- `np.log` on a possibly-NaN value: `log x` for `x > 0`, `-inf` at 0,
NaN for negative arguments and for NaN. -/
noncomputable def QF.log : QF → EFloat
  | .num q => if 0 < q then .fin (Real.log (q : ℝ)) else if q = 0 then .ninf else .nan
  | .nan => .nan

/-- `.replace([np.inf, -np.inf], 0)` on one cell: infinities become 0, NaN
and finite values pass through. -/
def EFloat.maskInf : EFloat → EFloat
  | .pinf => .fin 0
  | .ninf => .fin 0
  | e => e

/-- IEEE multiplication of a finite float by a possibly-infinite value:
`0 * ±inf = NaN`, NaN absorbs. -/
noncomputable def EFloat.mulQ (a : ℚ) : EFloat → EFloat
  | .fin x => .fin ((a : ℝ) * x)
  | .pinf => if 0 < a then .pinf else if a < 0 then .ninf else .nan
  | .ninf => if 0 < a then .ninf else if a < 0 then .pinf else .nan
  | .nan => .nan

/-- IEEE addition: NaN absorbs, `+inf + -inf = NaN`. -/
noncomputable def EFloat.add : EFloat → EFloat → EFloat
  | .nan, _ => .nan
  | _, .nan => .nan
  | .pinf, .ninf => .nan
  | .ninf, .pinf => .nan
  | .pinf, _ => .pinf
  | _, .pinf => .pinf
  | .ninf, _ => .ninf
  | _, .ninf => .ninf
  | .fin a, .fin b => .fin (a + b)

def EFloat.isNan : EFloat → Bool
  | .nan => true
  | _ => false

/-- `Series.sum()` with pandas' default `skipna=True`: drop the NaNs, fold
IEEE addition over the rest starting from `0.0`. -/
noncomputable def esum (l : List EFloat) : EFloat :=
  (l.filter (fun e => !e.isNan)).foldl EFloat.add (.fin 0)

/-! ### `pd.cut` (used by `iv_woe` when `bins` is truthy) -/

/-- The bin edges `pd.cut(x, bins=b, duplicates='drop')` uses: `b+1` equally
spaced points from the column's min to its max, the first lowered by 0.1% of
the range so the minimum falls inside the first half-open interval;
`duplicates='drop'` deduplicates the edges. -/
def cutEdges (qs : List ℚ) (b : ℕ) : List ℚ :=
  match qs with
  | [] => []
  | q :: rest =>
    let mn := rest.foldl min q
    let mx := rest.foldl max q
    let raw := (List.range (b + 1)).map fun i => mn + (mx - mn) * i / b
    (match raw with
     | [] => []
     | e :: es => (e - (mx - mn) / 1000) :: es).dedup

/-- Assign a number to its bin: the interval `(lo, hi]` of consecutive edges
containing it, NaN when it falls outside every bin. -/
def cutAssign (edges : List ℚ) (x : ℚ) : Val :=
  ((edges.zip edges.tail).find? (fun p => decide (p.1 < x) && decide (x ≤ p.2))).elim
    Val.null (fun p => Val.itv p.1 p.2)

/-- `pd.cut(series, bins=b, duplicates='drop')`: numeric cells are replaced
by their bin interval, missing cells stay missing. -/
def cut (vs : List Val) (b : ℕ) : List Val :=
  let edges := cutEdges (vs.filterMap Val.toNum) b
  vs.map fun v => (v.toNum.elim Val.null (cutAssign edges))

/-! ### `iv_woe` (source lines 125–164) -/

/-- One row of the WoE/IV table built by `iv_woe`. -/
structure IvRow where
  cat : Val
  buenos : ℕ
  malos : ℕ
  dist_buenos : ℚ
  dist_malos : ℚ
  WoE : EFloat
  IV : EFloat

/-- `buenos=(target, lambda x: (x == 0).sum())` for one group: rows whose
variable cell is `g` and whose target cell is 0. -/
def goodCount (xs ts : List Val) (g : Val) : ℕ :=
  ((xs.zip ts).filter (fun p => decide (p.1 = g))).countP (fun p => decide (p.2 = .num 0))

/-- `malos=(target, lambda x: (x == 1).sum())` for one group. -/
def badCount (xs ts : List Val) (g : Val) : ℕ :=
  ((xs.zip ts).filter (fun p => decide (p.1 = g))).countP (fun p => decide (p.2 = .num 1))

/-- `(df[target] == 0).sum()`. -/
def totalBuenos (df : DataFrame) (target : String) : ℕ :=
  (df.col target).countP (fun t => decide (t = .num 0))

/-- `(df[target] == 1).sum()`. -/
def totalMalos (df : DataFrame) (target : String) : ℕ :=
  (df.col target).countP (fun t => decide (t = .num 1))

/-- The row `iv_woe` builds for one group: the counts, the normalized
shares, the final WoE with `±inf` masked to 0, and the IV — computed from
the *raw* WoE, since `tabla['IV']` is assigned before the
`.replace([np.inf, -np.inf], 0)` line runs. -/
noncomputable def ivRow (xs ts : List Val) (total_buenos total_malos : ℕ) (g : Val) :
    IvRow :=
  let b := goodCount xs ts g
  let m := badCount xs ts g
  let db : ℚ := (b : ℚ) / total_buenos
  let dm : ℚ := (m : ℚ) / total_malos
  let woeRaw := QF.log (QF.div db (replace0nan dm))
  { cat := g, buenos := b, malos := m, dist_buenos := db, dist_malos := dm,
    WoE := woeRaw.maskInf, IV := EFloat.mulQ (db - dm) woeRaw }

/-- `iv_woe(df, variable, target, bins)` (the Python parameter `variable` is
a Lean keyword, hence `variable0`).  When `bins` is truthy the variable
column of the *caller's* dataframe is overwritten with its binned version
(`df[variable] = pd.cut(df[variable], bins=bins, duplicates='drop')`); the
groups are the distinct non-missing values of the (possibly binned) column;
the totals are taken over the whole target column.  Returns the per-group
table, `iv_total`, and the final state of the dataframe. -/
noncomputable def iv_woe (df : DataFrame) (variable0 target : String) (bins : Option ℕ) :
    List IvRow × EFloat × DataFrame :=
  let df' := match bins with
    | none => df
    | some b => if b = 0 then df else df.setCol variable0 (cut (df.col variable0) b)
  let xs := df'.col variable0
  let ts := df'.col target
  let groups := (xs.filter Val.notNull).dedup
  let tabla := groups.map (ivRow xs ts (totalBuenos df' target) (totalMalos df' target))
  (tabla, esum (tabla.map IvRow.IV), df')

/-! ### Small evaluation lemmas for the WoE pipeline -/

theorem replace0nan_zero : replace0nan 0 = .nan := rfl

theorem replace0nan_ne {q : ℚ} (h : q ≠ 0) : replace0nan q = .num q := by
  simp [replace0nan, h]

theorem qflog_nan : QF.log .nan = .nan := rfl

theorem qflog_zero : QF.log (.num 0) = .ninf := by
  simp [QF.log]

theorem qflog_pos {q : ℚ} (h : 0 < q) : QF.log (.num q) = .fin (Real.log (q : ℝ)) := by
  simp [QF.log, h]

theorem maskInf_nan : EFloat.nan.maskInf = .nan := rfl

theorem maskInf_ninf : EFloat.ninf.maskInf = .fin 0 := rfl

theorem maskInf_fin (x : ℝ) : (EFloat.fin x).maskInf = .fin x := rfl

theorem mulQ_nan (a : ℚ) : EFloat.mulQ a .nan = .nan := rfl

theorem mulQ_ninf_of_neg {a : ℚ} (h : a < 0) : EFloat.mulQ a .ninf = .pinf := by
  simp only [EFloat.mulQ]
  rw [if_neg (by linarith), if_pos h]

/-! ### Claim C6: `iv_woe` and mutation of its input -/

theorem cutAssign_ne_num (edges : List ℚ) (x q : ℚ) : cutAssign edges x ≠ Val.num q := by
  unfold cutAssign
  cases hf : (edges.zip edges.tail).find? (fun p => decide (p.1 < x) && decide (x ≤ p.2)) <;>
    simp [hf]

/-- **C6 (amended)**: with `bins=None` (the only falsy value besides 0) the
`if bins:` guard skips the `pd.cut` assignment and `iv_woe` leaves the
caller's dataframe unchanged.  The claim as stated — purity for *every* bin
count — fails: see the counterexample, where a positive `bins` overwrites
the variable column in place. -/
theorem C6_pure_without_bins (df : DataFrame) (variable0 target : String) :
    (iv_woe df variable0 target none).2.2 = df := rfl

/-- A 4-row dataframe with a numeric variable column. -/
def dfCut : DataFrame :=
  ⟨[⟨"x", "float64", [.num 0, .num 1, .num 2, .num 3]⟩,
    ⟨"t", "int64", [.num 0, .num 1, .num 0, .num 1]⟩]⟩

/-- **C6 counterexample**: calling `iv_woe` with `bins=2` on `dfCut` leaves
the dataframe *changed* — the first cell of column `x` has become a bin
interval instead of the number 0 — so `iv_woe` is not read-only for every
bin count. -/
theorem C6_counterexample : (iv_woe dfCut "x" "t" (some 2)).2.2 ≠ dfCut := by
  intro h
  have h0 : ((iv_woe dfCut "x" "t" (some 2)).2.2.col "x").head? = (dfCut.col "x").head? :=
    congrArg (fun d => (d.col "x").head?) h
  have h1 : ((iv_woe dfCut "x" "t" (some 2)).2.2.col "x").head? =
      some (cutAssign (cutEdges [0, 1, 2, 3] 2) 0) := rfl
  have h2 : (dfCut.col "x").head? = some (Val.num 0) := rfl
  rw [h1, h2] at h0
  exact cutAssign_ne_num _ _ _ (Option.some.inj h0)

/-! ### Projection equations for `ivRow` and the `iv_woe` table -/

theorem qfdiv_num (a q : ℚ) : QF.div a (.num q) = .num (a / q) := rfl

theorem qfdiv_nan (a : ℚ) : QF.div a .nan = .nan := rfl

theorem ivRow_cat (xs ts : List Val) (tb tm : ℕ) (g : Val) :
    (ivRow xs ts tb tm g).cat = g := rfl

theorem ivRow_dist_buenos (xs ts : List Val) (tb tm : ℕ) (g : Val) :
    (ivRow xs ts tb tm g).dist_buenos = (goodCount xs ts g : ℚ) / (tb : ℚ) := rfl

theorem ivRow_dist_malos (xs ts : List Val) (tb tm : ℕ) (g : Val) :
    (ivRow xs ts tb tm g).dist_malos = (badCount xs ts g : ℚ) / (tm : ℚ) := rfl

theorem ivRow_woe (xs ts : List Val) (tb tm : ℕ) (g : Val) :
    (ivRow xs ts tb tm g).WoE =
      (QF.log (QF.div ((goodCount xs ts g : ℚ) / (tb : ℚ))
        (replace0nan ((badCount xs ts g : ℚ) / (tm : ℚ))))).maskInf := rfl

theorem ivRow_iv (xs ts : List Val) (tb tm : ℕ) (g : Val) :
    (ivRow xs ts tb tm g).IV =
      EFloat.mulQ ((goodCount xs ts g : ℚ) / (tb : ℚ) - (badCount xs ts g : ℚ) / (tm : ℚ))
        (QF.log (QF.div ((goodCount xs ts g : ℚ) / (tb : ℚ))
          (replace0nan ((badCount xs ts g : ℚ) / (tm : ℚ))))) := rfl

theorem iv_woe_table_eq (df : DataFrame) (v t : String) (bins : Option ℕ) :
    (iv_woe df v t bins).1 =
      ((((iv_woe df v t bins).2.2.col v).filter Val.notNull).dedup).map
        (ivRow ((iv_woe df v t bins).2.2.col v) ((iv_woe df v t bins).2.2.col t)
          (totalBuenos (iv_woe df v t bins).2.2 t) (totalMalos (iv_woe df v t bins).2.2 t)) := rfl

/-! ### Claim C1: the WoE masking rule, row by row -/

/-- The three WoE cases of one table row: NaN when `dist_malos = 0` (the
zero was replaced by NaN *before* the log, and `.replace([inf,-inf],0)` does
not touch NaN), 0 when `dist_buenos = 0 < dist_malos` (the `-inf` masked),
and `ln(dist_buenos/dist_malos)` when both shares are positive. -/
theorem ivRow_woe_cases (xs ts : List Val) (tb tm : ℕ) (g : Val) :
    ((ivRow xs ts tb tm g).dist_malos = 0 → (ivRow xs ts tb tm g).WoE = .nan) ∧
    ((ivRow xs ts tb tm g).dist_malos ≠ 0 → (ivRow xs ts tb tm g).dist_buenos = 0 →
      (ivRow xs ts tb tm g).WoE = .fin 0) ∧
    ((ivRow xs ts tb tm g).dist_malos ≠ 0 → (ivRow xs ts tb tm g).dist_buenos ≠ 0 →
      (ivRow xs ts tb tm g).WoE =
        .fin (Real.log (((ivRow xs ts tb tm g).dist_buenos /
          (ivRow xs ts tb tm g).dist_malos : ℚ) : ℝ))) := by
  rw [ivRow_dist_malos, ivRow_dist_buenos, ivRow_woe]
  refine ⟨fun h0 => ?_, fun hm0 hb0 => ?_, fun hm0 hb0 => ?_⟩
  · rw [h0, replace0nan_zero, qfdiv_nan, qflog_nan]; rfl
  · rw [replace0nan_ne hm0, qfdiv_num, hb0, zero_div, qflog_zero]; rfl
  · have hdb : 0 < (goodCount xs ts g : ℚ) / (tb : ℚ) :=
      lt_of_le_of_ne (div_nonneg (Nat.cast_nonneg _) (Nat.cast_nonneg _)) (Ne.symm hb0)
    have hdm : 0 < (badCount xs ts g : ℚ) / (tm : ℚ) :=
      lt_of_le_of_ne (div_nonneg (Nat.cast_nonneg _) (Nat.cast_nonneg _)) (Ne.symm hm0)
    rw [replace0nan_ne hm0, qfdiv_num, qflog_pos (div_pos hdb hdm), maskInf_fin]

/-- **C1 (amended)**: for every dataframe, variable, binary target (both
target values present, so that both totals are positive and the float
divisions the code performs are the exact divisions modelled here) and bin
choice, every row of the returned table has `WoE = ln(dist_good/dist_bad)`
when both shares are positive, `WoE = 0` when `dist_good = 0 ≠ dist_bad`
(the `-inf` collapsed to 0), and `WoE = NaN` — *not* 0 — when
`dist_bad = 0`: the claim's "0 whenever dist_bad(g) is 0" is false, since
the code replaces a zero `dist_malos` by NaN before taking the log and masks
only `±inf` afterwards. -/
theorem C1_woe_masking (df : DataFrame) (variable0 target : String) (bins : Option ℕ)
    (hb : 0 < totalBuenos (iv_woe df variable0 target bins).2.2 target)
    (hm : 0 < totalMalos (iv_woe df variable0 target bins).2.2 target)
    (r : IvRow) (hr : r ∈ (iv_woe df variable0 target bins).1) :
    (r.dist_malos = 0 → r.WoE = .nan) ∧
    (r.dist_malos ≠ 0 → r.dist_buenos = 0 → r.WoE = .fin 0) ∧
    (r.dist_malos ≠ 0 → r.dist_buenos ≠ 0 →
      r.WoE = .fin (Real.log ((r.dist_buenos / r.dist_malos : ℚ) : ℝ))) := by
  rw [iv_woe_table_eq] at hr
  rcases List.mem_map.1 hr with ⟨g, hg, rfl⟩
  exact ivRow_woe_cases _ _ _ _ g

/-! ### The separating example dataset of spec §8 -/

/-- `target = [0,0,1,1]`, `cat = ['A','A','B','B']`. -/
def dfSep : DataFrame :=
  ⟨[⟨"cat", "object", [.str "A", .str "A", .str "B", .str "B"]⟩,
    ⟨"target", "int64", [.num 0, .num 0, .num 1, .num 1]⟩]⟩

theorem dfSep_table : (iv_woe dfSep "cat" "target" none).1 =
    [ivRow (dfSep.col "cat") (dfSep.col "target") 2 2 (Val.str "A"),
     ivRow (dfSep.col "cat") (dfSep.col "target") 2 2 (Val.str "B")] := rfl

theorem dfSep_goodA : goodCount (dfSep.col "cat") (dfSep.col "target") (Val.str "A") = 2 := by
  decide

theorem dfSep_badA : badCount (dfSep.col "cat") (dfSep.col "target") (Val.str "A") = 0 := by
  decide

theorem dfSep_goodB : goodCount (dfSep.col "cat") (dfSep.col "target") (Val.str "B") = 0 := by
  decide

theorem dfSep_badB : badCount (dfSep.col "cat") (dfSep.col "target") (Val.str "B") = 2 := by
  decide

theorem dfSep_dmA :
    (ivRow (dfSep.col "cat") (dfSep.col "target") 2 2 (Val.str "A")).dist_malos = 0 := by
  rw [ivRow_dist_malos, dfSep_badA]
  norm_num

theorem dfSep_woeA :
    (ivRow (dfSep.col "cat") (dfSep.col "target") 2 2 (Val.str "A")).WoE = .nan := by
  rw [ivRow_woe, dfSep_badA]
  norm_num
  rw [replace0nan_zero, qfdiv_nan, qflog_nan]
  rfl

theorem dfSep_woeB :
    (ivRow (dfSep.col "cat") (dfSep.col "target") 2 2 (Val.str "B")).WoE = .fin 0 := by
  rw [ivRow_woe, dfSep_goodB, dfSep_badB]
  norm_num
  rw [replace0nan_ne one_ne_zero, qfdiv_num, zero_div, qflog_zero]
  rfl

theorem dfSep_memA :
    ivRow (dfSep.col "cat") (dfSep.col "target") 2 2 (Val.str "A") ∈
      (iv_woe dfSep "cat" "target" none).1 := by
  rw [dfSep_table]
  exact List.mem_cons_self _ _

theorem dfSep_ivA :
    (ivRow (dfSep.col "cat") (dfSep.col "target") 2 2 (Val.str "A")).IV = .nan := by
  rw [ivRow_iv, dfSep_badA]
  norm_num
  rw [replace0nan_zero, qfdiv_nan, qflog_nan, mulQ_nan]

theorem dfSep_ivB :
    (ivRow (dfSep.col "cat") (dfSep.col "target") 2 2 (Val.str "B")).IV = .pinf := by
  rw [ivRow_iv, dfSep_goodB, dfSep_badB]
  norm_num
  rw [replace0nan_ne one_ne_zero, qfdiv_num, zero_div, qflog_zero]
  exact mulQ_ninf_of_neg (by norm_num)

theorem dfSep_iv_total : (iv_woe dfSep "cat" "target" none).2.1 = .pinf := by
  have h : (iv_woe dfSep "cat" "target" none).2.1 =
      esum [(ivRow (dfSep.col "cat") (dfSep.col "target") 2 2 (Val.str "A")).IV,
            (ivRow (dfSep.col "cat") (dfSep.col "target") 2 2 (Val.str "B")).IV] := rfl
  rw [h, dfSep_ivA, dfSep_ivB]
  rfl

theorem dfSep_dbA :
    (ivRow (dfSep.col "cat") (dfSep.col "target") 2 2 (Val.str "A")).dist_buenos = 1 := by
  rw [ivRow_dist_buenos, dfSep_goodA]
  norm_num

theorem dfSep_dbB :
    (ivRow (dfSep.col "cat") (dfSep.col "target") 2 2 (Val.str "B")).dist_buenos = 0 := by
  rw [ivRow_dist_buenos, dfSep_goodB]
  norm_num

theorem dfSep_dmB :
    (ivRow (dfSep.col "cat") (dfSep.col "target") 2 2 (Val.str "B")).dist_malos = 1 := by
  rw [ivRow_dist_malos, dfSep_badB]
  norm_num

/-- **C1 counterexample**: in the table `iv_woe` returns on `dfSep` (the
spec's own §8 dataset), the row of group `'A'` has `dist_malos = 0` and a
WoE that is *not* 0 — it is NaN — refuting "WoE(g) equals 0 whenever
dist_bad(g) is 0". -/
theorem C1_counterexample :
    ivRow (dfSep.col "cat") (dfSep.col "target") 2 2 (Val.str "A") ∈
        (iv_woe dfSep "cat" "target" none).1 ∧
    (ivRow (dfSep.col "cat") (dfSep.col "target") 2 2 (Val.str "A")).dist_malos = 0 ∧
    (ivRow (dfSep.col "cat") (dfSep.col "target") 2 2 (Val.str "A")).WoE ≠ EFloat.fin 0 :=
  ⟨dfSep_memA, dfSep_dmA, by rw [dfSep_woeA]; exact fun h => nomatch h⟩

theorem C1_woe_masking_witness :
    (ivRow (dfSep.col "cat") (dfSep.col "target") 2 2 (Val.str "A")).WoE = EFloat.nan :=
  (C1_woe_masking dfSep "cat" "target" none (by decide) (by decide) _ dfSep_memA).1 dfSep_dmA

/-! ### Claim C2: the end-to-end separating example -/

/-- **C2 (amended)**: on the §8 dataset the shares are as claimed
(`dist_good(A)=1, dist_bad(A)=0, dist_good(B)=0, dist_bad(B)=1`), but the
masking rule does *not* make both WoE and IV_total 0: WoE(A) is NaN (the
zero `dist_bad(A)` becomes NaN before the log, and only `±inf` is masked),
WoE(B) is 0, and `IV_total = +inf`, because `tabla['IV']` is computed
*before* the mask: `IV(B) = (0-1)·(-inf) = +inf`, and the NaN `IV(A)` is
skipped by `.sum()`. -/
theorem C2_separating_example :
    ((iv_woe dfSep "cat" "target" none).1.map fun r => (r.cat, r.dist_buenos, r.dist_malos)) =
      [(Val.str "A", 1, 0), (Val.str "B", 0, 1)] ∧
    ((iv_woe dfSep "cat" "target" none).1.map fun r => r.WoE) = [.nan, .fin 0] ∧
    (iv_woe dfSep "cat" "target" none).2.1 = .pinf := by
  refine ⟨?_, ?_, dfSep_iv_total⟩
  · rw [dfSep_table]
    simp only [List.map_cons, List.map_nil, ivRow_cat]
    rw [dfSep_dbA, dfSep_dmA, dfSep_dbB, dfSep_dmB]
  · rw [dfSep_table]
    simp only [List.map_cons, List.map_nil]
    rw [dfSep_woeA, dfSep_woeB]

/-- **C2 counterexample**: at the claim's own input, `IV_total` is `+inf`,
not the claimed 0. -/
theorem C2_counterexample :
    (iv_woe dfSep "cat" "target" none).2.1 = EFloat.pinf ∧ EFloat.pinf ≠ EFloat.fin 0 :=
  ⟨dfSep_iv_total, fun h => nomatch h⟩

/-! ### `get_percent_null_values_target` (source lines 231–249) and
`get_deviation_of_mean_perc` (source lines 196–227) -/

/-- One block of the accumulated result table: the normalized target-value
distribution among the qualifying rows, the variable's name (the source's
column `variable` — a Lean keyword, hence `varName`), the qualifying-row
count (`sum_null_values` / `sum_outlier_values`) and its rate
(`porcentaje_sum_null_values`). -/
structure SummaryRow where
  props : List (Val × ℚ)
  varName : String
  count : ℕ
  rate : ℚ
deriving DecidableEq

/-- `value_counts(normalize=True)`: each distinct value with its share
(pandas orders by descending frequency; no statement below uses the order). -/
def valueCountsNorm (ts : List Val) : List (Val × ℚ) :=
  ts.dedup.map fun v => (v, (ts.count v : ℚ) / (ts.length : ℚ))

/-- The `pd_concat_percent` block for one variable.  The transposed
one-row-per-distinct-target-value frame has its columns renamed to
`[iloc[0,0], iloc[0,1]]`, which requires *exactly two* distinct target
values among the qualifying rows: with fewer, reading `iloc[0,1]` raises an
IndexError; with more, assigning a 2-element column list raises a length
mismatch. -/
def summaryBlock (ts : List Val) (i : String) (count : ℕ) (rate : ℚ) :
    Except String SummaryRow :=
  if ts.dedup.length = 2 then .ok ⟨valueCountsNorm ts, i, count, rate⟩
  else if ts.dedup.length < 2 then .error "IndexError" else .error "ValueError"

/-- `pd_loan[i].isnull().sum()`. -/
def nullCount (pd_loan : DataFrame) (i : String) : ℕ :=
  (pd_loan.col i).countP fun v => !v.notNull

/-- `pd_loan[target][pd_loan[i].isnull()]`: the target values in the rows
where column `i` is missing. -/
def nullTargets (pd_loan : DataFrame) (i target : String) : List Val :=
  (((pd_loan.col i).zip (pd_loan.col target)).filter fun p => !p.1.notNull).map Prod.snd

/-- `get_percent_null_values_target(pd_loan, list_var_continuous, target)`:
for each listed variable with at least one missing value, append the block
of its missing-row target distribution, missing count and missing rate
(relative to `pd_loan.shape[0]`); a failing block aborts the whole call. -/
def get_percent_null_values_target (pd_loan : DataFrame)
    (list_var_continuous : List String) (target : String) :
    Except String (List SummaryRow) :=
  match list_var_continuous with
  | [] => .ok []
  | i :: rest =>
    if 0 < nullCount pd_loan i then
      match summaryBlock (nullTargets pd_loan i target) i (nullCount pd_loan i)
          ((nullCount pd_loan i : ℚ) / (pd_loan.nRows : ℚ)) with
      | .ok row => (get_percent_null_values_target pd_loan rest target).map (row :: ·)
      | .error e => .error e
    else get_percent_null_values_target pd_loan rest target

/-- `Series.mean()` (pandas skips NaN). -/
def seriesMean (xs : List Val) : ℚ :=
  ((xs.filterMap Val.toNum).sum) / ((xs.filterMap Val.toNum).length : ℚ)

/-- The square of `Series.std()`: the ddof=1 sample variance over the
non-missing cells. -/
def seriesVar (xs : List Val) : ℚ :=
  ((xs.filterMap Val.toNum).map (fun x => (x - seriesMean xs) ^ 2)).sum /
    (((xs.filterMap Val.toNum).length : ℚ) - 1)

/-- The source marks row `x` an outlier when `x < mean - multiplier*std` or
`x > mean + multiplier*std`, `std = sqrt(seriesVar)`; for a nonnegative
multiplier this is the square comparison used here (`outlier_iff_sqrt`
proves the equivalence), and a missing cell compares False on both sides,
exactly as NaN does in pandas. -/
def isOutlier (xs : List Val) (multiplier : ℚ) (v : Val) : Bool :=
  match v.toNum with
  | none => false
  | some x => decide (multiplier ^ 2 * seriesVar xs < (x - seriesMean xs) ^ 2)

/-- For a nonnegative multiplier and nonnegative variance the source's
two-sided outlier test agrees with the square comparison of `isOutlier`. -/
theorem outlier_iff_sqrt (mean v k x : ℝ) (hk : 0 ≤ k) (hv : 0 ≤ v) :
    (x < mean - k * Real.sqrt v ∨ x > mean + k * Real.sqrt v) ↔
      k ^ 2 * v < (x - mean) ^ 2 := by
  have hs : 0 ≤ k * Real.sqrt v := mul_nonneg hk (Real.sqrt_nonneg v)
  have h2 : (k * Real.sqrt v) ^ 2 = k ^ 2 * v := by
    rw [mul_pow, Real.sq_sqrt hv]
  constructor
  · rintro (h | h)
    · have habs : k * Real.sqrt v < |x - mean| :=
        lt_of_lt_of_le (by linarith) (neg_le_abs _)
      calc k ^ 2 * v = (k * Real.sqrt v) ^ 2 := h2.symm
        _ < |x - mean| ^ 2 := by
            exact pow_lt_pow_left habs hs (by norm_num)
        _ = (x - mean) ^ 2 := sq_abs _
    · have habs : k * Real.sqrt v < |x - mean| :=
        lt_of_lt_of_le (by linarith) (le_abs_self _)
      calc k ^ 2 * v = (k * Real.sqrt v) ^ 2 := h2.symm
        _ < |x - mean| ^ 2 := by
            exact pow_lt_pow_left habs hs (by norm_num)
        _ = (x - mean) ^ 2 := sq_abs _
  · intro h
    have habs : k * Real.sqrt v < |x - mean| := by
      by_contra hle
      push_neg at hle
      have := pow_le_pow_left (abs_nonneg _) hle 2
      rw [sq_abs, h2] at this
      linarith
    rcases lt_abs.1 habs with h1 | h1
    · exact Or.inr (by linarith)
    · exact Or.inl (by linarith)

/-- `pd_loan[i][...outlier mask...].size`. -/
def outlierCount (xs : List Val) (multiplier : ℚ) : ℕ :=
  xs.countP (isOutlier xs multiplier)

/-- `pd_loan[target][(pd_loan[i] < left) | (pd_loan[i] > right)]`: the
target values in the outlier rows of column `i`. -/
def outlierTargets (pd_loan : DataFrame) (i target : String) (multiplier : ℚ) : List Val :=
  (((pd_loan.col i).zip (pd_loan.col target)).filter
    fun p => isOutlier (pd_loan.col i) multiplier p.1).map Prod.snd

/-- `get_deviation_of_mean_perc(pd_loan, list_var_continuous, target,
multiplier)`: for each listed variable whose outlier rate
`perc_excess = outliers/size` is positive, append the block of its
outlier-row target distribution, outlier count (`sum_outlier_values`) and
`perc_excess`; a failing block aborts the whole call. -/
def get_deviation_of_mean_perc (pd_loan : DataFrame) (list_var_continuous : List String)
    (target : String) (multiplier : ℚ) : Except String (List SummaryRow) :=
  match list_var_continuous with
  | [] => .ok []
  | i :: rest =>
    if 0 < (outlierCount (pd_loan.col i) multiplier : ℚ) / ((pd_loan.col i).length : ℚ) then
      match summaryBlock (outlierTargets pd_loan i target multiplier) i
          (outlierCount (pd_loan.col i) multiplier)
          ((outlierCount (pd_loan.col i) multiplier : ℚ) / ((pd_loan.col i).length : ℚ)) with
      | .ok row => (get_deviation_of_mean_perc pd_loan rest target multiplier).map (row :: ·)
      | .error e => .error e
    else get_deviation_of_mean_perc pd_loan rest target multiplier

/-- Did the call raise? -/
def isFailure {α : Type} : Except String α → Bool
  | .error _ => true
  | .ok _ => false

theorem isFailure_map {α β : Type} (f : α → β) (e : Except String α) :
    isFailure (e.map f) = isFailure e := by
  cases e <;> rfl

/-! ### Claim C7: the null-rate summary -/

/-- 10 rows; column `x` misses 2 of them, and the two missing rows carry the
two target values 0 and 1. -/
def dfNull : DataFrame :=
  ⟨[⟨"x", "float64", [.null, .null, .num 5, .num 5, .num 5, .num 5, .num 5, .num 5,
      .num 5, .num 5]⟩,
    ⟨"t", "int64", [.num 0, .num 1, .num 0, .num 1, .num 0, .num 1, .num 0, .num 1,
      .num 0, .num 1]⟩]⟩

theorem dfNull_targets : nullTargets dfNull "x" "t" = [Val.num 0, Val.num 1] := by decide

theorem dfNull_count : nullCount dfNull "x" = 2 := by decide

theorem dfNull_vcounts :
    valueCountsNorm [Val.num 0, Val.num 1] = [(Val.num 0, 1/2), (Val.num 1, 1/2)] := by
  unfold valueCountsNorm
  rw [(by decide : ([Val.num 0, Val.num 1].dedup) = [Val.num 0, Val.num 1])]
  simp only [List.map_cons, List.map_nil]
  rw [(by decide : ([Val.num 0, Val.num 1].count (Val.num 0)) = 1),
    (by decide : ([Val.num 0, Val.num 1].count (Val.num 1)) = 1)]
  norm_num

theorem dfNull_example :
    get_percent_null_values_target dfNull ["x"] "t" =
      .ok [⟨[(Val.num 0, 1/2), (Val.num 1, 1/2)], "x", 2, 1/5⟩] := by
  have h2 : (nullTargets dfNull "x" "t").dedup.length = 2 := by decide
  simp only [get_percent_null_values_target, summaryBlock,
    if_pos (by decide : 0 < nullCount dfNull "x"), if_pos h2, Except.map]
  rw [dfNull_targets, dfNull_vcounts, dfNull_count,
    (by decide : dfNull.nRows = 10)]
  norm_num

/-- **C7**: every block `get_percent_null_values_target` returns belongs to
a listed variable with at least one missing value and records that
variable's missing count as `sum_null_values` and its missing rate relative
to the total row count as `porcentaje_sum_null_values`; and on the dataset
where the listed column misses 2 of 10 rows the returned block has
`sum_null_values = 2` and `porcentaje_sum_null_values = 0.2`. -/
theorem C7_null_rate_summary :
    (∀ (df : DataFrame) (vars : List String) (target : String) (rs : List SummaryRow),
      get_percent_null_values_target df vars target = .ok rs →
      ∀ r ∈ rs, r.varName ∈ vars ∧ 0 < nullCount df r.varName ∧
        r.count = nullCount df r.varName ∧
        r.rate = (nullCount df r.varName : ℚ) / (df.nRows : ℚ)) ∧
    get_percent_null_values_target dfNull ["x"] "t" =
      .ok [⟨[(Val.num 0, 1/2), (Val.num 1, 1/2)], "x", 2, 1/5⟩] := by
  refine ⟨fun df vars target => ?_, dfNull_example⟩
  induction vars with
  | nil =>
    intro rs h r hr
    simp only [get_percent_null_values_target] at h
    cases h
    simp at hr
  | cons i rest ih =>
    intro rs h r hr
    simp only [get_percent_null_values_target] at h
    by_cases hc : 0 < nullCount df i
    · rw [if_pos hc] at h
      cases hb : summaryBlock (nullTargets df i target) i (nullCount df i)
          ((nullCount df i : ℚ) / (df.nRows : ℚ)) with
      | ok row =>
        rw [hb] at h
        cases hrest : get_percent_null_values_target df rest target with
        | ok rs' =>
          rw [hrest] at h
          simp only [Except.map] at h
          cases h
          rcases List.mem_cons.1 hr with rfl | hmem
          · have hrow : r = ⟨valueCountsNorm (nullTargets df i target), i, nullCount df i,
                (nullCount df i : ℚ) / (df.nRows : ℚ)⟩ := by
              unfold summaryBlock at hb
              split at hb
              · exact (Except.ok.inj hb).symm
              · split at hb <;> cases hb
            rw [hrow]
            exact ⟨List.mem_cons_self _ _, hc, rfl, rfl⟩
          · rcases ih rs' hrest r hmem with ⟨h1, h2, h3, h4⟩
            exact ⟨List.mem_cons_of_mem _ h1, h2, h3, h4⟩
        | error e =>
          rw [hrest] at h
          simp only [Except.map] at h
          cases h
      | error e =>
        rw [hb] at h
        cases h
    · rw [if_neg hc] at h
      rcases ih rs h r hr with ⟨h1, h2, h3, h4⟩
      exact ⟨List.mem_cons_of_mem _ h1, h2, h3, h4⟩

/-! ### Claim C10: one distinct target value among the qualifying rows -/

/-- 3 rows; `x` misses 2 of them, and both missing rows have target 0. -/
def dfMono : DataFrame :=
  ⟨[⟨"x", "float64", [.null, .null, .num 1]⟩,
    ⟨"t", "int64", [.num 0, .num 0, .num 1]⟩]⟩

theorem dfMono_error :
    get_percent_null_values_target dfMono ["x"] "t" = .error "IndexError" := by
  have h1 : (nullTargets dfMono "x" "t").dedup.length = 1 := by decide
  simp only [get_percent_null_values_target, summaryBlock,
    if_pos (by decide : 0 < nullCount dfMono "x"), h1]
  norm_num

/-- **C10**: whenever some listed variable qualifies (missing values in
`get_percent_null_values_target`, outliers in `get_deviation_of_mean_perc`)
but all its qualifying rows carry one single target value, the transposed
block has a single column, the renaming `columns = [iloc[0,0], iloc[0,1]]`
reads a second column that does not exist, and the call fails instead of
returning a table; on concrete single-target-value inputs the failure is the
IndexError. -/
theorem C10_single_target_value_raises :
    (∀ (df : DataFrame) (vars : List String) (target i : String), i ∈ vars →
      0 < nullCount df i → (nullTargets df i target).dedup.length = 1 →
      isFailure (get_percent_null_values_target df vars target) = true) ∧
    (∀ (df : DataFrame) (vars : List String) (target i : String) (mult : ℚ), i ∈ vars →
      0 < outlierCount (df.col i) mult →
      (outlierTargets df i target mult).dedup.length = 1 →
      isFailure (get_deviation_of_mean_perc df vars target mult) = true) ∧
    get_percent_null_values_target dfMono ["x"] "t" = .error "IndexError" := by
  refine ⟨fun df vars target i => ?_, fun df vars target i mult => ?_, dfMono_error⟩
  · induction vars with
    | nil => intro hi; exact absurd hi (List.not_mem_nil _)
    | cons j rest ih =>
      intro hi hc h1
      simp only [get_percent_null_values_target]
      rcases List.mem_cons.1 hi with rfl | hmem
      · rw [if_pos hc]
        have hblock : summaryBlock (nullTargets df i target) i (nullCount df i)
            ((nullCount df i : ℚ) / (df.nRows : ℚ)) = .error "IndexError" := by
          unfold summaryBlock
          rw [h1]
          norm_num
        rw [hblock]
        rfl
      · by_cases hcj : 0 < nullCount df j
        · rw [if_pos hcj]
          cases hb : summaryBlock (nullTargets df j target) j (nullCount df j)
              ((nullCount df j : ℚ) / (df.nRows : ℚ)) with
          | ok row =>
            exact (isFailure_map (fun x => row :: x)
              (get_percent_null_values_target df rest target)).trans (ih hmem hc h1)
          | error e => rfl
        · rw [if_neg hcj]
          exact ih hmem hc h1
  · induction vars with
    | nil => intro hi; exact absurd hi (List.not_mem_nil _)
    | cons j rest ih =>
      intro hi hc h1
      simp only [get_deviation_of_mean_perc]
      rcases List.mem_cons.1 hi with rfl | hmem
      · have hlen : 0 < (df.col i).length :=
          lt_of_lt_of_le hc (List.countP_le_length _)
        have hcond : 0 < (outlierCount (df.col i) mult : ℚ) / ((df.col i).length : ℚ) :=
          div_pos (by exact_mod_cast hc) (by exact_mod_cast hlen)
        rw [if_pos hcond]
        have hblock : summaryBlock (outlierTargets df i target mult) i
            (outlierCount (df.col i) mult)
            ((outlierCount (df.col i) mult : ℚ) / ((df.col i).length : ℚ)) =
              .error "IndexError" := by
          unfold summaryBlock
          rw [h1]
          norm_num
        rw [hblock]
        rfl
      · by_cases hcj : 0 < (outlierCount (df.col j) mult : ℚ) / ((df.col j).length : ℚ)
        · rw [if_pos hcj]
          cases hb : summaryBlock (outlierTargets df j target mult) j
              (outlierCount (df.col j) mult)
              ((outlierCount (df.col j) mult : ℚ) / ((df.col j).length : ℚ)) with
          | ok row =>
            exact (isFailure_map (fun x => row :: x)
              (get_deviation_of_mean_perc df rest target mult)).trans (ih hmem hc h1)
          | error e => rfl
        · rw [if_neg hcj]
          exact ih hmem hc h1

/-! ### `cramers_v` (source lines 253–269)

A contingency table is an `r × k` grid of rationals, `M i j` for
`i < r, j < k` (entries outside that range are never read: every sum below
ranges over `Finset.range`). -/

/-- Row sums of a table of width `k`. -/
def rowSum (k : ℕ) (M : ℕ → ℕ → ℚ) (i : ℕ) : ℚ := ∑ j in Finset.range k, M i j

/-- Column sums of a table of height `r`. -/
def colSum (r : ℕ) (M : ℕ → ℕ → ℚ) (j : ℕ) : ℚ := ∑ i in Finset.range r, M i j

/-- `confusion_matrix.sum()` on the numpy array: the grand total `n`. -/
def gTotal (r k : ℕ) (M : ℕ → ℕ → ℚ) : ℚ :=
  ∑ i in Finset.range r, ∑ j in Finset.range k, M i j

/-- The expected frequencies `outer(rowsums, colsums) / n` that
`scipy.stats.chi2_contingency` computes. -/
def expFreq (r k : ℕ) (M : ℕ → ℕ → ℚ) (i j : ℕ) : ℚ :=
  rowSum k M i * colSum r M j / gTotal r k M

/-- The plain Pearson statistic `Σ (O - E)² / E`. -/
def pearsonChi2 (r k : ℕ) (M : ℕ → ℕ → ℚ) : ℚ :=
  ∑ i in Finset.range r, ∑ j in Finset.range k,
    (M i j - expFreq r k M i j) ^ 2 / expFreq r k M i j

/-- `np.sign`. -/
def qsign (q : ℚ) : ℚ := if 0 < q then 1 else if q < 0 then -1 else 0

/-- Yates' continuity correction as scipy applies it: each observed cell is
moved toward its expected value by `min(0.5, |expected - observed|)`. -/
def yatesObs (r k : ℕ) (M : ℕ → ℕ → ℚ) (i j : ℕ) : ℚ :=
  M i j + min (1/2) |expFreq r k M i j - M i j| * qsign (expFreq r k M i j - M i j)

/-- `scipy.stats.chi2_contingency(M)[0]` with the default
`correction=True`: when `dof = (r-1)(k-1) = 1` — i.e. a 2×2 table — the
statistic is computed from the Yates-adjusted observations, otherwise it is
the plain Pearson statistic. -/
def chi2_contingency (r k : ℕ) (M : ℕ → ℕ → ℚ) : ℚ :=
  if (r - 1) * (k - 1) = 1 then
    ∑ i in Finset.range r, ∑ j in Finset.range k,
      (yatesObs r k M i j - expFreq r k M i j) ^ 2 / expFreq r k M i j
  else pearsonChi2 r k M

/-- The radicand of `cramers_v`: `chi2 = chi2_contingency(M)[0]`,
`n = M.sum()`, `phi2 = chi2/n`,
`phi2corr = max(0, phi2 - (k-1)(r-1)/(n-1))`,
`rcorr = r - (r-1)²/(n-1)`, `kcorr = k - (k-1)²/(n-1)`, and the radicand
`phi2corr / min(kcorr-1, rcorr-1)`. -/
def cramersVArg (r k : ℕ) (M : ℕ → ℕ → ℚ) : ℚ :=
  let chi2 := chi2_contingency r k M
  let n := gTotal r k M
  let phi2 := chi2 / n
  let phi2corr := max 0 (phi2 - ((k : ℚ) - 1) * ((r : ℚ) - 1) / (n - 1))
  let rcorr := (r : ℚ) - ((r : ℚ) - 1) ^ 2 / (n - 1)
  let kcorr := (k : ℚ) - ((k : ℚ) - 1) ^ 2 / (n - 1)
  phi2corr / min (kcorr - 1) (rcorr - 1)

/-- `cramers_v(confusion_matrix)`: `np.sqrt` of the radicand.  (For the
degenerate inputs the spec flags as undefined — `n ≤ 1`, one-category
variables — numpy produces NaN where `Real.sqrt` of a negative or `0/0`
radicand gives 0; no statement below touches those inputs.) -/
noncomputable def cramers_v (r k : ℕ) (M : ℕ → ℕ → ℚ) : ℝ :=
  Real.sqrt ((cramersVArg r k M : ℚ) : ℝ)

/-- The claim's reading of the same formula, with `chi2` the *plain
Pearson* statistic for every table shape — no continuity correction. -/
def cramersVArgSpec (r k : ℕ) (M : ℕ → ℕ → ℚ) : ℚ :=
  let chi2 := pearsonChi2 r k M
  let n := gTotal r k M
  let phi2 := chi2 / n
  let phi2corr := max 0 (phi2 - ((k : ℚ) - 1) * ((r : ℚ) - 1) / (n - 1))
  let rcorr := (r : ℚ) - ((r : ℚ) - 1) ^ 2 / (n - 1)
  let kcorr := (k : ℚ) - ((k : ℚ) - 1) ^ 2 / (n - 1)
  phi2corr / min (kcorr - 1) (rcorr - 1)

/-- `cramers_v` as the claim states it. -/
noncomputable def cramers_v_spec (r k : ℕ) (M : ℕ → ℕ → ℚ) : ℝ :=
  Real.sqrt ((cramersVArgSpec r k M : ℚ) : ℝ)

/-! ### Claim C3: the `cramers_v` formula -/

/-- **C3 (amended)**: for every contingency table that is not 2×2 (degrees
of freedom `(r-1)(k-1) ≠ 1`), `cramers_v` is exactly the claimed formula
with the plain Pearson chi-squared statistic; on 2×2 tables
`ss.chi2_contingency`'s default continuity correction replaces `chi2` by the
Yates-adjusted statistic, and the claimed formula fails (see the
counterexample). -/
theorem C3_cramers_v_formula (r k : ℕ) (M : ℕ → ℕ → ℚ)
    (h : (r - 1) * (k - 1) ≠ 1) :
    cramers_v r k M = cramers_v_spec r k M := by
  unfold cramers_v cramers_v_spec cramersVArg cramersVArgSpec chi2_contingency
  rw [if_neg h]

theorem C3_cramers_v_formula_witness :
    cramers_v 2 3 (fun _ _ => 1) = cramers_v_spec 2 3 (fun _ _ => 1) :=
  C3_cramers_v_formula 2 3 (fun _ _ => 1) (by norm_num)

/-- The 2×2 diagonal table `[[2,0],[0,2]]`. -/
def M22 : ℕ → ℕ → ℚ := fun i j => if i = j then 2 else 0

theorem M22_code_arg : cramersVArg 2 2 M22 = 0 := by
  norm_num [cramersVArg, chi2_contingency, yatesObs, expFreq, rowSum, colSum, gTotal,
    qsign, M22, Finset.sum_range_succ, Finset.sum_range_zero, abs, min_def, max_def]

theorem M22_spec_arg : cramersVArgSpec 2 2 M22 = 1 := by
  norm_num [cramersVArgSpec, pearsonChi2, expFreq, rowSum, colSum, gTotal,
    M22, Finset.sum_range_succ, Finset.sum_range_zero, min_def, max_def]

/-- **C3 counterexample**: on the 2×2 table `[[2,0],[0,2]]` the code returns
`sqrt(0) = 0` — Yates' correction shrinks `chi2` from 4 to 1 and the
bias-corrected `phi2corr` clamps to 0 — while the claimed formula gives
`sqrt(1) = 1`. -/
theorem C3_counterexample : cramers_v 2 2 M22 ≠ cramers_v_spec 2 2 M22 := by
  unfold cramers_v cramers_v_spec
  rw [M22_code_arg, M22_spec_arg]
  norm_num

/-! ### `pd.crosstab` and `cramer_matrix` (source lines 273–285) -/

/-- The row-aligned pairs `pd.crosstab(data[var1], data[var2])` tabulates:
pairs with a missing member are dropped. -/
def ctPairs (data : DataFrame) (v1 v2 : String) : List (Val × Val) :=
  ((data.col v1).zip (data.col v2)).filter fun p => p.1.notNull && p.2.notNull

/-- The distinct row values of the cross-tabulation (pandas sorts them; this
model keeps first-occurrence order — see the file comment). -/
def ctRowVals (ps : List (Val × Val)) : List Val := (ps.map Prod.fst).dedup

/-- The distinct column values of the cross-tabulation. -/
def ctColVals (ps : List (Val × Val)) : List Val := (ps.map Prod.snd).dedup

/-- Cell `(i, j)` of the cross-tabulation: how many pairs equal the `i`-th
distinct row value and the `j`-th distinct column value. -/
def ctEntry (ps : List (Val × Val)) (i j : ℕ) : ℚ :=
  ((ps.countP fun p => decide (p.1 = (ctRowVals ps).getD i .null) &&
    decide (p.2 = (ctColVals ps).getD j .null) : ℕ) : ℚ)

/-- `cramer_matrix(data, categorical_vars)`: the square matrix whose
`(i, j)` cell is
`cramers_v(pd.crosstab(data[categorical_vars[i]], data[categorical_vars[j]]).values)`. -/
noncomputable def cramer_matrix (data : DataFrame) (categorical_vars : List String) :
    Matrix (Fin categorical_vars.length) (Fin categorical_vars.length) ℝ :=
  Matrix.of fun i j =>
    cramers_v (ctRowVals (ctPairs data (categorical_vars.get i) (categorical_vars.get j))).length
      (ctColVals (ctPairs data (categorical_vars.get i) (categorical_vars.get j))).length
      (ctEntry (ctPairs data (categorical_vars.get i) (categorical_vars.get j)))

/-! ### Transpose invariance of `cramers_v`, symmetry of `cramer_matrix` -/

theorem gTotal_flip (r k : ℕ) (M : ℕ → ℕ → ℚ) :
    gTotal k r (fun i j => M j i) = gTotal r k M := Finset.sum_comm

theorem expFreq_flip (r k : ℕ) (M : ℕ → ℕ → ℚ) (i j : ℕ) :
    expFreq k r (fun a b => M b a) i j = expFreq r k M j i := by
  unfold expFreq
  rw [gTotal_flip]
  show colSum r M i * rowSum k M j / gTotal r k M =
    rowSum k M j * colSum r M i / gTotal r k M
  ring

theorem pearsonChi2_flip (r k : ℕ) (M : ℕ → ℕ → ℚ) :
    pearsonChi2 k r (fun a b => M b a) = pearsonChi2 r k M := by
  unfold pearsonChi2
  rw [Finset.sum_comm]
  refine Finset.sum_congr rfl fun j _ => Finset.sum_congr rfl fun i _ => ?_
  rw [expFreq_flip]

theorem yatesObs_flip (r k : ℕ) (M : ℕ → ℕ → ℚ) (i j : ℕ) :
    yatesObs k r (fun a b => M b a) i j = yatesObs r k M j i := by
  unfold yatesObs
  rw [expFreq_flip]

theorem chi2_contingency_flip (r k : ℕ) (M : ℕ → ℕ → ℚ) :
    chi2_contingency k r (fun a b => M b a) = chi2_contingency r k M := by
  unfold chi2_contingency
  rw [Nat.mul_comm (k - 1) (r - 1)]
  by_cases h : (r - 1) * (k - 1) = 1
  · rw [if_pos h, if_pos h, Finset.sum_comm]
    refine Finset.sum_congr rfl fun j _ => Finset.sum_congr rfl fun i _ => ?_
    rw [expFreq_flip, yatesObs_flip]
  · rw [if_neg h, if_neg h, pearsonChi2_flip]

theorem cramersVArg_flip (r k : ℕ) (M : ℕ → ℕ → ℚ) :
    cramersVArg k r (fun a b => M b a) = cramersVArg r k M := by
  simp only [cramersVArg]
  rw [chi2_contingency_flip, gTotal_flip, min_comm,
    mul_comm ((r : ℚ) - 1) ((k : ℚ) - 1)]

theorem cramers_v_flip (r k : ℕ) (M : ℕ → ℕ → ℚ) :
    cramers_v k r (fun a b => M b a) = cramers_v r k M := by
  unfold cramers_v
  rw [cramersVArg_flip]

theorem ctPairs_swap (data : DataFrame) (v1 v2 : String) :
    ctPairs data v2 v1 = (ctPairs data v1 v2).map Prod.swap := by
  unfold ctPairs
  rw [← List.zip_swap (data.col v1) (data.col v2), List.filter_map]
  congr 1
  apply List.filter_congr
  intro p _
  simp only [Function.comp_apply, Prod.fst_swap, Prod.snd_swap]
  exact Bool.and_comm _ _

theorem ctRowVals_swap (ps : List (Val × Val)) :
    ctRowVals (ps.map Prod.swap) = ctColVals ps := by
  unfold ctRowVals ctColVals
  rw [List.map_map]
  rfl

theorem ctColVals_swap (ps : List (Val × Val)) :
    ctColVals (ps.map Prod.swap) = ctRowVals ps := by
  unfold ctRowVals ctColVals
  rw [List.map_map]
  rfl

theorem ctEntry_swap (ps : List (Val × Val)) (i j : ℕ) :
    ctEntry (ps.map Prod.swap) i j = ctEntry ps j i := by
  unfold ctEntry
  rw [ctRowVals_swap, ctColVals_swap, List.countP_map]
  congr 1
  apply List.countP_congr
  intro p _
  simp only [Function.comp_apply, Prod.fst_swap, Prod.snd_swap, Bool.and_eq_true,
    decide_eq_true_eq]
  exact and_comm

/-! ### Claim C5: the Cramér's V matrix equals its transpose -/

/-- **C5**: for every dataset and list of at least 2 categorical variables,
the matrix `cramer_matrix` returns equals its own transpose: the
cross-tabulation of `(B, A)` is the transpose of that of `(A, B)`, and every
piece of `cramers_v` — chi2 with or without Yates' adjustment, `n`,
`phi2corr`, `min(kcorr-1, rcorr-1)` — is invariant under transposition. -/
theorem C5_cramer_matrix_symmetric (data : DataFrame) (categorical_vars : List String)
    (h2 : 2 ≤ categorical_vars.length) :
    (cramer_matrix data categorical_vars).transpose = cramer_matrix data categorical_vars := by
  ext i j
  show cramer_matrix data categorical_vars j i = cramer_matrix data categorical_vars i j
  unfold cramer_matrix
  simp only [Matrix.of_apply]
  rw [ctPairs_swap data (categorical_vars.get i) (categorical_vars.get j),
    ctRowVals_swap, ctColVals_swap]
  have he : ctEntry ((ctPairs data (categorical_vars.get i) (categorical_vars.get j)).map
      Prod.swap) = fun a b =>
        ctEntry (ctPairs data (categorical_vars.get i) (categorical_vars.get j)) b a :=
    funext fun a => funext fun b => ctEntry_swap _ a b
  rw [he, cramers_v_flip]

theorem C5_cramer_matrix_symmetric_witness :
    (cramer_matrix dfSep ["cat", "target"]).transpose = cramer_matrix dfSep ["cat", "target"] :=
  C5_cramer_matrix_symmetric dfSep ["cat", "target"] (by norm_num)

/-! ### Claim C9: the diagonal of `cramer_matrix` -/

theorem zip_self {α : Type} (l : List α) : l.zip l = l.map fun x => (x, x) := by
  induction l with
  | nil => rfl
  | cons a t ih => simp [List.zip_cons_cons, ih]

/-- The self-cross-tabulation pairs each non-missing cell with itself. -/
theorem ctPairs_self (data : DataFrame) (v : String) :
    ctPairs data v v = ((data.col v).filter Val.notNull).map fun x => (x, x) := by
  unfold ctPairs
  rw [zip_self, List.filter_map]
  congr 1
  apply List.filter_congr
  intro x _
  simp only [Function.comp_apply]
  exact Bool.and_self _

theorem ctRowVals_self (ys : List Val) :
    ctRowVals (ys.map fun x => (x, x)) = ys.dedup := by
  unfold ctRowVals
  rw [List.map_map]
  show (ys.map fun x => x).dedup = ys.dedup
  rw [List.map_id']

theorem ctColVals_self (ys : List Val) :
    ctColVals (ys.map fun x => (x, x)) = ys.dedup := by
  unfold ctColVals
  rw [List.map_map]
  show (ys.map fun x => x).dedup = ys.dedup
  rw [List.map_id']

/-- `l.count u` written as the `countP` the crosstab cells use. -/
theorem count_eq_countP_decide (ys : List Val) (u : Val) :
    ys.count u = ys.countP fun x => decide (x = u) := rfl

/-- The self-cross-tabulation is the diagonal matrix of value counts. -/
theorem ctEntry_self (ys : List Val) (i j : ℕ) :
    ctEntry (ys.map fun x => (x, x)) i j =
      if ys.dedup.getD i .null = ys.dedup.getD j .null then
        (ys.count (ys.dedup.getD i .null) : ℚ) else 0 := by
  unfold ctEntry
  rw [ctRowVals_self, ctColVals_self, List.countP_map]
  by_cases h : ys.dedup.getD i .null = ys.dedup.getD j .null
  · rw [if_pos h, ← h, count_eq_countP_decide]
    congr 1
    apply List.countP_congr
    intro x _
    simp only [Function.comp_apply, Bool.and_eq_true, decide_eq_true_eq]
    exact and_self_iff
  · rw [if_neg h]
    have hz : (ys.countP ((fun p => decide (p.1 = ys.dedup.getD i Val.null) &&
        decide (p.2 = ys.dedup.getD j Val.null)) ∘ fun x => (x, x))) = 0 := by
      rw [List.countP_eq_zero]
      intro x _
      simp only [Function.comp_apply, Bool.and_eq_true, decide_eq_true_eq, not_and]
      intro h1 h2
      exact absurd (h1 ▸ h2 ▸ rfl : ys.dedup.getD i Val.null = ys.dedup.getD j Val.null) h
    rw [hz]
    exact Nat.cast_zero

/-! #### The Pearson statistic of a diagonal table -/

theorem rowSum_diag (c : ℕ) (M : ℕ → ℕ → ℚ) (m : ℕ → ℚ)
    (hM : ∀ i ∈ Finset.range c, ∀ j ∈ Finset.range c, M i j = if i = j then m i else 0)
    {i : ℕ} (hi : i ∈ Finset.range c) : rowSum c M i = m i := by
  unfold rowSum
  rw [Finset.sum_congr rfl fun j hj => hM i hi j hj,
    Finset.sum_ite_eq (Finset.range c) i fun _ => m i, if_pos hi]

theorem colSum_diag (c : ℕ) (M : ℕ → ℕ → ℚ) (m : ℕ → ℚ)
    (hM : ∀ i ∈ Finset.range c, ∀ j ∈ Finset.range c, M i j = if i = j then m i else 0)
    {j : ℕ} (hj : j ∈ Finset.range c) : colSum c M j = m j := by
  unfold colSum
  rw [Finset.sum_congr rfl fun i hi => hM i hi j hj,
    Finset.sum_ite_eq' (Finset.range c) j fun i => m i, if_pos hj]

theorem gTotal_diag (c : ℕ) (M : ℕ → ℕ → ℚ) (m : ℕ → ℚ)
    (hM : ∀ i ∈ Finset.range c, ∀ j ∈ Finset.range c, M i j = if i = j then m i else 0) :
    gTotal c c M = ∑ i in Finset.range c, m i :=
  Finset.sum_congr rfl fun i hi => rowSum_diag c M m hM hi

theorem expFreq_diag (c : ℕ) (M : ℕ → ℕ → ℚ) (m : ℕ → ℚ)
    (hM : ∀ i ∈ Finset.range c, ∀ j ∈ Finset.range c, M i j = if i = j then m i else 0)
    {i j : ℕ} (hi : i ∈ Finset.range c) (hj : j ∈ Finset.range c) :
    expFreq c c M i j = m i * m j / (∑ t in Finset.range c, m t) := by
  unfold expFreq
  rw [rowSum_diag c M m hM hi, colSum_diag c M m hM hj, gTotal_diag c M m hM]

/-- Pearson's chi-squared of a `c × c` diagonal table with positive diagonal
entries `m i` is `(c-1)·n`. -/
theorem pearsonChi2_diag (c : ℕ) (M : ℕ → ℕ → ℚ) (m : ℕ → ℚ)
    (hM : ∀ i ∈ Finset.range c, ∀ j ∈ Finset.range c, M i j = if i = j then m i else 0)
    (hm : ∀ i ∈ Finset.range c, 0 < m i) (hc : 0 < c) :
    pearsonChi2 c c M = ((c : ℚ) - 1) * (∑ i in Finset.range c, m i) := by
  have hNpos : (0 : ℚ) < ∑ i in Finset.range c, m i :=
    Finset.sum_pos hm ⟨0, Finset.mem_range.2 hc⟩
  have hNe : (∑ i in Finset.range c, m i) ≠ 0 := ne_of_gt hNpos
  have hinner : ∀ i ∈ Finset.range c,
      (∑ j in Finset.range c, (M i j - expFreq c c M i j) ^ 2 / expFreq c c M i j) =
        (∑ t in Finset.range c, m t) - m i := by
    intro i hi
    have hmi := hm i hi
    rw [Finset.sum_eq_sum_diff_singleton_add hi
      (fun j => (M i j - expFreq c c M i j) ^ 2 / expFreq c c M i j)]
    have hoff : (∑ j in Finset.range c \ {i},
        (M i j - expFreq c c M i j) ^ 2 / expFreq c c M i j) =
        (∑ j in Finset.range c \ {i}, m i * m j / (∑ t in Finset.range c, m t)) := by
      apply Finset.sum_congr rfl
      intro j hj
      have hjr : j ∈ Finset.range c := (Finset.mem_sdiff.1 hj).1
      have hji : j ≠ i := by
        have h2 := (Finset.mem_sdiff.1 hj).2
        simpa using h2
      have hmj := hm j hjr
      rw [hM i hi j hjr, if_neg (fun hh => hji hh.symm), expFreq_diag c M m hM hi hjr]
      have hne : m i * m j / (∑ t in Finset.range c, m t) ≠ 0 :=
        ne_of_gt (div_pos (mul_pos hmi hmj) hNpos)
      rw [zero_sub, neg_sq, sq, mul_div_assoc, div_self hne, mul_one]
    rw [hoff]
    have hsumoff : (∑ j in Finset.range c \ {i}, m j) = (∑ t in Finset.range c, m t) - m i := by
      have h3 := Finset.sum_eq_sum_diff_singleton_add hi m
      linarith
    have hsum2 : (∑ j in Finset.range c \ {i}, m i * m j / (∑ t in Finset.range c, m t)) =
        m i * ((∑ t in Finset.range c, m t) - m i) / (∑ t in Finset.range c, m t) := by
      rw [← Finset.sum_div, ← Finset.mul_sum, hsumoff]
    rw [hsum2, hM i hi i hi, if_pos rfl, expFreq_diag c M m hM hi hi]
    have hmie : m i ≠ 0 := ne_of_gt hmi
    field_simp
    ring
  unfold pearsonChi2
  rw [Finset.sum_congr rfl hinner, Finset.sum_sub_distrib, Finset.sum_const,
    Finset.card_range, nsmul_eq_mul]
  ring

/-- The `cramers_v` radicand of a diagonal table with at least 3 positive
diagonal entries and total exceeding the number of categories is exactly 1:
no Yates branch, `phi2 = c-1`, and `phi2corr` equals
`min(kcorr-1, rcorr-1)`. -/
theorem cramersVArg_diag (c : ℕ) (M : ℕ → ℕ → ℚ) (m : ℕ → ℚ)
    (hM : ∀ i ∈ Finset.range c, ∀ j ∈ Finset.range c, M i j = if i = j then m i else 0)
    (hm : ∀ i ∈ Finset.range c, 0 < m i) (hc3 : 3 ≤ c)
    (hN : (c : ℚ) < ∑ i in Finset.range c, m i) :
    cramersVArg c c M = 1 := by
  have hc0 : 0 < c := by omega
  have hcq : (3 : ℚ) ≤ (c : ℚ) := by exact_mod_cast hc3
  have hNpos : (0 : ℚ) < ∑ i in Finset.range c, m i := by linarith
  have hNe : (∑ i in Finset.range c, m i) ≠ 0 := ne_of_gt hNpos
  have hchi : chi2_contingency c c M = ((c : ℚ) - 1) * (∑ i in Finset.range c, m i) := by
    unfold chi2_contingency
    rw [if_neg fun h => by
      have h2 := Nat.eq_one_of_mul_eq_one_right h
      omega]
    exact pearsonChi2_diag c M m hM hm hc0
  simp only [cramersVArg]
  rw [hchi, gTotal_diag c M m hM, mul_div_cancel_right₀ _ hNe]
  have hNm1 : (0 : ℚ) < (∑ i in Finset.range c, m i) - 1 := by linarith
  have ht : (0 : ℚ) < ((c : ℚ) - 1) -
      ((c : ℚ) - 1) * ((c : ℚ) - 1) / ((∑ i in Finset.range c, m i) - 1) := by
    rw [sub_pos, div_lt_iff hNm1]
    have h1 : (0 : ℚ) < (c : ℚ) - 1 := by linarith
    nlinarith
  rw [max_eq_right (le_of_lt ht), min_self]
  have hx : (c : ℚ) - ((c : ℚ) - 1) ^ 2 / ((∑ i in Finset.range c, m i) - 1) - 1 =
      ((c : ℚ) - 1) - ((c : ℚ) - 1) * ((c : ℚ) - 1) / ((∑ i in Finset.range c, m i) - 1) := by
    ring
  rw [hx, div_self (ne_of_gt ht)]

/-- Summing each distinct value's count recovers the list's length. -/
theorem sum_range_getD_count (ys : List Val) :
    (∑ t in Finset.range ys.dedup.length, (ys.count (ys.dedup.getD t .null) : ℚ)) =
      (ys.length : ℚ) := by
  have h1 : ∀ (l : List Val),
      (∑ t in Finset.range l.length, ys.count (l.getD t .null)) =
        (l.map fun x => ys.count x).sum := by
    intro l
    induction l with
    | nil => simp
    | cons a tl ih =>
      rw [List.length_cons, Finset.sum_range_succ']
      simp only [List.getD_cons_succ, List.getD_cons_zero, List.map_cons, List.sum_cons]
      rw [ih]
      exact Nat.add_comm _ _
  have h2 : (∑ t in Finset.range ys.dedup.length, ys.count (ys.dedup.getD t .null)) =
      ys.length := by
    rw [h1 ys.dedup]
    exact List.sum_map_count_dedup_eq_length ys
  rw [← Nat.cast_sum, h2]

/-- **C9 (amended)**: a diagonal cell of `cramer_matrix` equals 1 whenever
the variable has at least 3 distinct non-missing values and strictly more
non-missing rows than distinct values (so that `phi2corr` stays positive).
The claim's unrestricted "every diagonal cell equals 1" fails — see the
counterexample: for a 2-valued variable the self-cross-tabulation is a 2×2
table, Yates' continuity correction shrinks chi2, and the cell can be 0. -/
theorem C9_diagonal_one (data : DataFrame) (categorical_vars : List String)
    (i : Fin categorical_vars.length)
    (hc3 : 3 ≤ (((data.col (categorical_vars.get i)).filter Val.notNull).dedup).length)
    (hN : (((data.col (categorical_vars.get i)).filter Val.notNull).dedup).length <
      ((data.col (categorical_vars.get i)).filter Val.notNull).length) :
    cramer_matrix data categorical_vars i i = 1 := by
  unfold cramer_matrix
  simp only [Matrix.of_apply]
  rw [ctPairs_self data (categorical_vars.get i), ctRowVals_self, ctColVals_self]
  unfold cramers_v
  have harg : cramersVArg
      (((data.col (categorical_vars.get i)).filter Val.notNull).dedup).length
      (((data.col (categorical_vars.get i)).filter Val.notNull).dedup).length
      (ctEntry (((data.col (categorical_vars.get i)).filter Val.notNull).map
        fun x => (x, x))) = 1 := by
    apply cramersVArg_diag _ _
      (fun t => (((data.col (categorical_vars.get i)).filter Val.notNull).count
        ((((data.col (categorical_vars.get i)).filter Val.notNull).dedup).getD t .null) : ℚ))
    · intro a ha b hb
      have ha' := Finset.mem_range.1 ha
      have hb' := Finset.mem_range.1 hb
      rw [ctEntry_self]
      by_cases hab : a = b
      · subst hab
        rw [if_pos rfl, if_pos rfl]
      · have hne : ¬((((data.col (categorical_vars.get i)).filter Val.notNull).dedup).getD
            a .null =
            (((data.col (categorical_vars.get i)).filter Val.notNull).dedup).getD b .null) := by
          intro hcontra
          apply hab
          rw [List.getD_eq_getElem _ _ ha', List.getD_eq_getElem _ _ hb'] at hcontra
          exact (List.Nodup.getElem_inj_iff (List.nodup_dedup _)).1 hcontra
        rw [if_neg hne, if_neg hab]
    · intro a ha
      have ha' := Finset.mem_range.1 ha
      have hmem : (((data.col (categorical_vars.get i)).filter Val.notNull).dedup).getD
          a .null ∈ ((data.col (categorical_vars.get i)).filter Val.notNull).dedup := by
        rw [List.getD_eq_getElem _ _ ha']
        exact List.getElem_mem ha'
      have hmem2 := List.mem_dedup.1 hmem
      exact_mod_cast List.count_pos_iff.2 hmem2
    · exact hc3
    · rw [sum_range_getD_count]
      exact_mod_cast hN
  rw [harg]
  norm_num

/-- A one-column dataframe whose variable takes 3 distinct values over 4
rows. -/
def dfTri : DataFrame :=
  ⟨[⟨"x", "object", [.str "A", .str "A", .str "B", .str "C"]⟩]⟩

theorem C9_diagonal_one_witness :
    cramer_matrix dfTri ["x"] ⟨0, by norm_num⟩ ⟨0, by norm_num⟩ = 1 :=
  C9_diagonal_one dfTri ["x"] ⟨0, by norm_num⟩ (by decide) (by decide)

/-- A one-column dataframe whose variable takes 2 values, twice each. -/
def dfBin : DataFrame :=
  ⟨[⟨"x", "object", [.str "A", .str "A", .str "B", .str "B"]⟩]⟩

/-- The self-cross-tabulation pairs of `dfBin`'s column. -/
def psBin : List (Val × Val) :=
  [(Val.str "A", Val.str "A"), (Val.str "A", Val.str "A"),
   (Val.str "B", Val.str "B"), (Val.str "B", Val.str "B")]

theorem psBin_e00 : ctEntry psBin 0 0 = 2 := by
  unfold ctEntry
  rw [(by decide : (psBin.countP fun p => decide (p.1 = (ctRowVals psBin).getD 0 .null) &&
    decide (p.2 = (ctColVals psBin).getD 0 .null)) = 2)]
  norm_num

theorem psBin_e01 : ctEntry psBin 0 1 = 0 := by
  unfold ctEntry
  rw [(by decide : (psBin.countP fun p => decide (p.1 = (ctRowVals psBin).getD 0 .null) &&
    decide (p.2 = (ctColVals psBin).getD 1 .null)) = 0)]
  norm_num

theorem psBin_e10 : ctEntry psBin 1 0 = 0 := by
  unfold ctEntry
  rw [(by decide : (psBin.countP fun p => decide (p.1 = (ctRowVals psBin).getD 1 .null) &&
    decide (p.2 = (ctColVals psBin).getD 0 .null)) = 0)]
  norm_num

theorem psBin_e11 : ctEntry psBin 1 1 = 2 := by
  unfold ctEntry
  rw [(by decide : (psBin.countP fun p => decide (p.1 = (ctRowVals psBin).getD 1 .null) &&
    decide (p.2 = (ctColVals psBin).getD 1 .null)) = 2)]
  norm_num

theorem psBin_arg : cramersVArg 2 2 (ctEntry psBin) = 0 := by
  norm_num [cramersVArg, chi2_contingency, yatesObs, expFreq, rowSum, colSum, gTotal,
    qsign, Finset.sum_range_succ, Finset.sum_range_zero, psBin_e00, psBin_e01, psBin_e10,
    psBin_e11, abs, min_def, max_def]

/-- **C9 counterexample**: on a dataset whose (only) categorical variable
takes the value 'A' twice and 'B' twice, the diagonal cell of
`cramer_matrix` for that variable is 0, not 1: the self-cross-tabulation is
the 2×2 table `[[2,0],[0,2]]`, Yates' correction shrinks chi2 to 1, and the
bias-corrected `phi2corr` clamps to 0. -/
theorem C9_counterexample :
    cramer_matrix dfBin ["x"] ⟨0, by norm_num⟩ ⟨0, by norm_num⟩ ≠ 1 := by
  have hps : ctPairs dfBin (["x"].get ⟨0, by norm_num⟩) (["x"].get ⟨0, by norm_num⟩) =
      psBin := by decide
  have hcell : cramer_matrix dfBin ["x"] ⟨0, by norm_num⟩ ⟨0, by norm_num⟩ =
      Real.sqrt ((0 : ℚ) : ℝ) := by
    unfold cramer_matrix cramers_v
    simp only [Matrix.of_apply]
    rw [hps, (by decide : (ctRowVals psBin).length = 2),
      (by decide : (ctColVals psBin).length = 2), psBin_arg]
  rw [hcell]
  norm_num
